import Mathlib

/-
Verification of the whiteboard client (benangeloh/whiteboard).

The development shallowly embeds the geometry kernel
(src/lib/canvas-math.ts, provided as src/unnamed/part_001), and the
element store, history and synchronization logic of
src/src/components/whiteboard/CanvasBoard.tsx, and settles the frozen
claims about them.  JavaScript numbers are modelled as real numbers;
stateful React handlers are modelled as pure state transformers over an
explicit board state together with an explicit persistent store.
-/

namespace Whiteboard

/-! ## Data model (src/types/canvas.ts) -/

/-- Model of the `Point` record of types/canvas.ts. -/
structure Point where
  x : ℝ
  y : ℝ

/-- Model of the `Camera` record: pan offset (x, y) and zoom factor z. -/
structure Camera where
  x : ℝ
  y : ℝ
  z : ℝ

/-- Model of the `BoundingBox` record of types/canvas.ts. -/
structure BoundingBox where
  minX : ℝ
  minY : ℝ
  maxX : ℝ
  maxY : ℝ
  width : ℝ
  height : ℝ

/-- Model of the `ToolType` union of types/canvas.ts. -/
inductive ToolType where
  | hand | selection | rect | diamond | ellipse
  | arrow | line | pencil | text | image | eraser
deriving DecidableEq

/-- Model of the `StrokeStyle` union of types/canvas.ts. -/
inductive StrokeStyle where
  | solid | dashed | dotted
deriving DecidableEq

/-- Model of the `TextAlign` union of types/canvas.ts. -/
inductive TextAlign where
  | left | center | right
deriving DecidableEq

/-- Model of the `CanvasElement` record of types/canvas.ts.  Optional
fields are `Option`; `points` is `none` when the field is `undefined`
or `null` in JavaScript (both falsy), and `some []` models an empty
array (truthy).  The optional `is_deleted` flag is modelled as a `Bool`
(absent = `false`), and the optional `id` as a `String` (every element
handled by the flows below carries an id, which the source asserts with
`el.id!`). -/
structure CanvasElement where
  id : String
  canvas_id : String
  user_id : String
  type : ToolType
  x : ℝ
  y : ℝ
  width : Option ℝ
  height : Option ℝ
  points : Option (List Point)
  color : String
  fill_color : Option String
  stroke_width : ℝ
  stroke_style : Option StrokeStyle
  opacity : Option ℝ
  rotation : Option ℝ
  text : Option String
  font_family : Option String
  font_size : Option ℝ
  text_align : Option TextAlign
  layer : Option ℝ
  is_deleted : Bool

/-! ## Geometry kernel (src/lib/canvas-math.ts) -/

/-- Source: `screenToCanvas` in canvas-math.ts. -/
noncomputable def screenToCanvas (point : Point) (camera : Camera) : Point :=
  ⟨(point.x - camera.x) / camera.z, (point.y - camera.y) / camera.z⟩

/-- Source: `canvasToScreen` in canvas-math.ts. -/
noncomputable def canvasToScreen (point : Point) (camera : Camera) : Point :=
  ⟨point.x * camera.z + camera.x, point.y * camera.z + camera.y⟩

/-- Source: `rotatePoint` in canvas-math.ts.  Rotation of `point` about
`center` by `angleDegrees` degrees via the standard rotation matrix. -/
noncomputable def rotatePoint (point center : Point) (angleDegrees : ℝ) : Point :=
  let angle := angleDegrees * Real.pi / 180
  let c := Real.cos angle
  let s := Real.sin angle
  let dx := point.x - center.x
  let dy := point.y - center.y
  ⟨center.x + (dx * c - dy * s), center.y + (dx * s + dy * c)⟩

/-- Source: `getElementBounds` in canvas-math.ts.  The pencil branch is
taken exactly when `el.type === 'pencil' && el.points` holds in the
source (a missing or null `points` is falsy, an empty array is truthy);
the JavaScript loop folds min/max starting from plus/minus Infinity,
which on a nonempty list equals folding from the first point. -/
noncomputable def getElementBounds (el : CanvasElement) : Option BoundingBox :=
  match el.type, el.points with
  | ToolType.pencil, some pts =>
    match pts with
    | [] => none
    | p :: ps =>
      let minX := ps.foldl (fun m q => min m q.x) p.x
      let minY := ps.foldl (fun m q => min m q.y) p.y
      let maxX := ps.foldl (fun m q => max m q.x) p.x
      let maxY := ps.foldl (fun m q => max m q.y) p.y
      some ⟨minX, minY, maxX, maxY, maxX - minX, maxY - minY⟩
  | _, _ =>
    match el.width, el.height with
    | some w, some h =>
      let x := if w < 0 then el.x + w else el.x
      let y := if h < 0 then el.y + h else el.y
      some ⟨x, y, x + |w|, y + |h|, |w|, |h|⟩
    | _, _ => none

/-- Source: `isHit` in canvas-math.ts.  Soft-deleted elements and
elements without derivable bounds never hit; otherwise the query point
is rotated into the local frame about the box center by the negated
rotation and tested against the box expanded by a fixed padding. -/
noncomputable def isHit (point : Point) (el : CanvasElement) : Bool :=
  if el.is_deleted then false
  else
    match getElementBounds el with
    | none => false
    | some bounds =>
      let cx := bounds.minX + bounds.width / 2
      let cy := bounds.minY + bounds.height / 2
      let localPoint := rotatePoint point ⟨cx, cy⟩ (-(el.rotation.getD 0))
      let padding : ℝ := 5
      if bounds.minX - padding ≤ localPoint.x ∧ localPoint.x ≤ bounds.maxX + padding ∧
          bounds.minY - padding ≤ localPoint.y ∧ localPoint.y ≤ bounds.maxY + padding
      then true else false

/-- Model of the JavaScript `string.includes(c)` test for a single
character, as used on the handle codes. -/
def jsIncludes (s : String) (c : Char) : Bool :=
  s.data.contains c

/-- Model of the JavaScript truncation toward zero used by the `%`
operator. -/
noncomputable def jsTrunc (q : ℝ) : ℤ :=
  if q < 0 then ⌈q⌉ else ⌊q⌋

/-- Model of the JavaScript remainder operator `a % b` on numbers: the
result of removing from `a` the multiple of `b` obtained by truncating
`a / b` toward zero, so the result takes the sign of the dividend. -/
noncomputable def jsMod (a b : ℝ) : ℝ :=
  a - b * jsTrunc (a / b)

/-- Source: the `cursorMap` object literal inside `getCursorForHandle`
in canvas-math.ts, mapping handle codes to base compass angles. -/
def cursorBaseAngle (handle : String) : Option ℝ :=
  match handle with
  | "n" | "tm" => some 0
  | "ne" | "tr" => some 45
  | "e" | "rm" => some 90
  | "se" | "br" => some 135
  | "s" | "bm" => some 180
  | "sw" | "bl" => some 225
  | "w" | "lm" => some 270
  | "nw" | "tl" => some 315
  | _ => none

/-- Source: the chain of threshold comparisons quantizing `totalAngle`
into a cursor orientation, lines 115-122 of canvas-math.ts. -/
noncomputable def cursorBucket (totalAngle : ℝ) : String :=
  if 337.5 < totalAngle ∨ totalAngle ≤ 22.5 then "ns-resize"
  else if 22.5 < totalAngle ∧ totalAngle ≤ 67.5 then "nesw-resize"
  else if 67.5 < totalAngle ∧ totalAngle ≤ 112.5 then "ew-resize"
  else if 112.5 < totalAngle ∧ totalAngle ≤ 157.5 then "nwse-resize"
  else if 157.5 < totalAngle ∧ totalAngle ≤ 202.5 then "ns-resize"
  else if 202.5 < totalAngle ∧ totalAngle ≤ 247.5 then "nesw-resize"
  else if 247.5 < totalAngle ∧ totalAngle ≤ 292.5 then "ew-resize"
  else "nwse-resize"

/-- Source: `getCursorForHandle` in canvas-math.ts.  The falsy-string
guard `if (!handle)` holds exactly for the empty string; the effective
angle is computed with the JavaScript remainder as
`(baseAngle + rotation + 360) % 360`. -/
noncomputable def getCursorForHandle (handle : String) (rotation : ℝ) : String :=
  if handle = "" then "default"
  else if handle = "rot" then "grabbing"
  else
    match cursorBaseAngle handle with
    | none => "default"
    | some baseAngle => cursorBucket (jsMod (baseAngle + rotation + 360) 360)

/-- Specification-side cursor mapping, following the spec wording: the
rotation handle gets the distinct rotate cursor, every other handle
computes the effective angle as its base compass angle plus the
rotation, normalized into [0,360) by a true floor-based modulus, and
returns the orientation of the 45 degree bucket of that angle. -/
noncomputable def specCursorForHandle (handle : String) (rotation : ℝ) : String :=
  if handle = "rot" then "grabbing"
  else
    match cursorBaseAngle handle with
    | none => "default"
    | some baseAngle =>
      cursorBucket ((baseAngle + rotation) - 360 * ⌊(baseAngle + rotation) / 360⌋)

/-! ## Transform engine: resize (CanvasBoard.tsx, resizing branch of
handlePointerMove, lines 558-617) -/

/-- Output geometry of one resize step for a box element: the new box
origin and dimensions. -/
structure RectBox where
  x : ℝ
  y : ℝ
  w : ℝ
  h : ℝ

/-- Source: lines 568-580 of CanvasBoard.tsx.  Applies the local-frame
delta to the dimensions selected by the handle code, then the optional
aspect lock on shift, then flips the origin across any negative
dimension.  Sequential mutation of the source is rendered as chained
bindings. -/
noncomputable def resizeRawBox (handle : String) (b : BoundingBox) (dx dy : ℝ)
    (shiftKey : Bool) : RectBox :=
  let newW1 := if jsIncludes handle 'r' then b.width + dx else b.width
  let newX1 := if jsIncludes handle 'l' then b.minX + dx else b.minX
  let newW2 := if jsIncludes handle 'l' then b.width - dx else newW1
  let newH1 := if jsIncludes handle 'b' then b.height + dy else b.height
  let newY1 := if jsIncludes handle 't' then b.minY + dy else b.minY
  let newH2 := if jsIncludes handle 't' then b.height - dy else newH1
  let ratio := b.width / b.height
  let lr := jsIncludes handle 'l' || jsIncludes handle 'r'
  let newW3 := if shiftKey ∧ ¬lr then newH2 * ratio else newW2
  let newH3 := if shiftKey ∧ lr then newW2 / ratio else newH2
  let newY2 := if shiftKey ∧ lr ∧ jsIncludes handle 't' then b.maxY - newH3 else newY1
  let newX2 := if shiftKey ∧ ¬lr ∧ jsIncludes handle 'l' then b.maxX - newW3 else newX1
  let newX3 := if newW3 < 0 then newX2 + newW3 else newX2
  let newW4 := if newW3 < 0 then |newW3| else newW3
  let newY3 := if newH3 < 0 then newY2 + newH3 else newY2
  let newH4 := if newH3 < 0 then |newH3| else newH3
  ⟨newX3, newY3, newW4, newH4⟩

/-- Source: lines 581-587 of CanvasBoard.tsx.  The anchor opposite the
dragged handle, in the original unrotated local frame. -/
noncomputable def anchorOld (handle : String) (b : BoundingBox) : Point :=
  let ax1 := if jsIncludes handle 'l' then b.maxX else b.minX
  let ay1 := if jsIncludes handle 't' then b.maxY else b.minY
  let ax2 := if handle = "tm" then b.minX + b.width / 2 else ax1
  let ay2 := if handle = "tm" then b.maxY else ay1
  let ax3 := if handle = "bm" then b.minX + b.width / 2 else ax2
  let ay3 := if handle = "bm" then b.minY else ay2
  let ax4 := if handle = "lm" then b.maxX else ax3
  let ay4 := if handle = "lm" then b.minY + b.height / 2 else ay3
  let ax5 := if handle = "rm" then b.minX else ax4
  let ay5 := if handle = "rm" then b.minY + b.height / 2 else ay4
  ⟨ax5, ay5⟩

/-- Source: lines 589-595 of CanvasBoard.tsx.  The same opposite anchor
located on a box with origin (x, y) and dimensions (w, h). -/
noncomputable def anchorNew (handle : String) (r : RectBox) : Point :=
  let ax1 := if jsIncludes handle 'l' then r.x + r.w else r.x
  let ay1 := if jsIncludes handle 't' then r.y + r.h else r.y
  let ax2 := if handle = "tm" then r.x + r.w / 2 else ax1
  let ay2 := if handle = "tm" then r.y + r.h else ay1
  let ax3 := if handle = "bm" then r.x + r.w / 2 else ax2
  let ay3 := if handle = "bm" then r.y else ay2
  let ax4 := if handle = "lm" then r.x + r.w else ax3
  let ay4 := if handle = "lm" then r.y + r.h / 2 else ay3
  let ax5 := if handle = "rm" then r.x else ax4
  let ay5 := if handle = "rm" then r.y + r.h / 2 else ay4
  ⟨ax5, ay5⟩

/-- Source: the resizing branch of handlePointerMove, lines 558-604 of
CanvasBoard.tsx, for a box element: rotate the gesture points into the
local frame about the original center, update dimensions from the
handle, identify the opposite anchor in the original frame and in the
new frame, and recover the box origin that keeps the anchor fixed in
world space under the original rotation. -/
noncomputable def resizeBox (handle : String) (startBounds : BoundingBox)
    (startPoint canvasPoint : Point) (rotation : ℝ) (shiftKey : Bool) : RectBox :=
  let oldCx := startBounds.minX + startBounds.width / 2
  let oldCy := startBounds.minY + startBounds.height / 2
  let unrotatedMouse := rotatePoint canvasPoint ⟨oldCx, oldCy⟩ (-rotation)
  let unrotatedStart := rotatePoint startPoint ⟨oldCx, oldCy⟩ (-rotation)
  let dx := unrotatedMouse.x - unrotatedStart.x
  let dy := unrotatedMouse.y - unrotatedStart.y
  let raw := resizeRawBox handle startBounds dx dy shiftKey
  let originalAnchorWorld := rotatePoint (anchorOld handle startBounds) ⟨oldCx, oldCy⟩ rotation
  let na := anchorNew handle raw
  let newCx := raw.x + raw.w / 2
  let newCy := raw.y + raw.h / 2
  let rotatedDistToAnchor := rotatePoint ⟨na.x - newCx, na.y - newCy⟩ ⟨0, 0⟩ rotation
  ⟨originalAnchorWorld.x - rotatedDistToAnchor.x - raw.w / 2,
   originalAnchorWorld.y - rotatedDistToAnchor.y - raw.h / 2,
   raw.w, raw.h⟩

/-! ## Transform engine: move (CanvasBoard.tsx, moving branch of
handlePointerMove, lines 540-557) -/

/-- Source: the moving branch of handlePointerMove.  A box element gets
its anchor set to pointer minus stored offset; a pencil element with a
point list translates every path point by the delta between the new
anchor and the current bounding-box origin, and is left unchanged when
no bounds are derivable. -/
noncomputable def moveStep (sel : CanvasElement) (offsetX offsetY : ℝ)
    (canvasPoint : Point) : CanvasElement :=
  let newX := canvasPoint.x - offsetX
  let newY := canvasPoint.y - offsetY
  match sel.type, sel.points with
  | ToolType.pencil, some ps =>
    match getElementBounds sel with
    | none => sel
    | some bounds =>
      let dx := newX - bounds.minX
      let dy := newY - bounds.minY
      { sel with points := some (ps.map fun p => ⟨p.x + dx, p.y + dy⟩) }
  | _, _ => { sel with x := newX, y := newY }

/-! ## History manager and element store (CanvasBoard.tsx) -/

/-- Model of the `HistoryItem` union of CanvasBoard.tsx.  The prev and
next payloads of an update item are typed `Partial<CanvasElement>` in
the source, but the only call site (gesture end, line 657) stores
complete element snapshots, so the object spread `{...e, ...prev}`
replaces every field; the payloads are therefore modelled as full
elements. -/
inductive HistoryItem where
  | create (id : String)
  | delete (id : String)
  | update (id : String) (prev next : CanvasElement)

/-- Local board state mutated by the handlers: the element list, the
selection, and the history log with its cursor. -/
structure BoardState where
  elements : List CanvasElement
  selectedElement : Option CanvasElement
  history : List HistoryItem
  historyStep : ℤ

/-- Model of the persistent `strokes` table: the rows, with the
soft-delete flag live on each row. -/
abbrev DB := List CanvasElement

/-- Persistence call `update({is_deleted: b}).eq('id', id)`. -/
def dbSetDeleted (db : DB) (id : String) (b : Bool) : DB :=
  db.map fun r => if r.id = id then { r with is_deleted := b } else r

/-- Persistence call writing a full element snapshot over the row with
the given id, as issued for the prev/next payload of an update item. -/
def dbWriteRow (db : DB) (id : String) (row : CanvasElement) : DB :=
  db.map fun r => if r.id = id then row else r

/-- Model of `list.slice(0, e)` in JavaScript: a negative end index
counts from the end of the list. -/
def jsSlice0 {α : Type} (l : List α) (e : ℤ) : List α :=
  if e < 0 then l.take ((l.length : ℤ) + e).toNat else l.take e.toNat

/-- Source: `addToHistory` in CanvasBoard.tsx (lines 190-195): truncate
the log after the cursor, append the item, and point the cursor at the
new last index. -/
def addToHistory (history : List HistoryItem) (historyStep : ℤ) (item : HistoryItem) :
    List HistoryItem × ℤ :=
  let nextHistory := jsSlice0 history (historyStep + 1) ++ [item]
  (nextHistory, (nextHistory.length : ℤ) - 1)

/-- Source: `performUndo` in CanvasBoard.tsx (lines 197-216), as a pure
transformer of the board state and the persistent store.  A cursor
below zero is a no-op.  Undoing a create soft-deletes the row and
removes the element locally, clearing the selection; undoing a delete
only un-deletes the row; undoing an update writes the stored previous
snapshot to the row, the local list and the selection.  The cursor then
moves down.  An out-of-range cursor (unreachable from the handlers) is
modelled as a no-op. -/
def performUndo (s : BoardState) (db : DB) : BoardState × DB :=
  if s.historyStep < 0 then (s, db)
  else
    match s.history[s.historyStep.toNat]? with
    | none => (s, db)
    | some (.create id) =>
      ({ s with
          elements := s.elements.filter fun e => e.id != id
          selectedElement := none
          historyStep := s.historyStep - 1 },
        dbSetDeleted db id true)
    | some (.delete id) =>
      ({ s with historyStep := s.historyStep - 1 }, dbSetDeleted db id false)
    | some (.update id prev _) =>
      ({ s with
          elements := s.elements.map fun e => if e.id = id then prev else e
          selectedElement :=
            match s.selectedElement with
            | some sel => if sel.id = id then some prev else some sel
            | none => none
          historyStep := s.historyStep - 1 },
        dbWriteRow db id prev)

/-- Source: `performRedo` in CanvasBoard.tsx (lines 218-238).  A cursor
at the end of the log is a no-op.  Redoing a create only un-deletes the
row; redoing a delete soft-deletes the row and removes the element
locally, clearing the selection; redoing an update writes the stored
next snapshot to the row, the local list and the selection.  The cursor
then moves up. -/
def performRedo (s : BoardState) (db : DB) : BoardState × DB :=
  if (s.history.length : ℤ) - 1 ≤ s.historyStep then (s, db)
  else
    let nextStep := s.historyStep + 1
    match s.history[nextStep.toNat]? with
    | none => (s, db)
    | some (.create id) =>
      ({ s with historyStep := nextStep }, dbSetDeleted db id false)
    | some (.delete id) =>
      ({ s with
          elements := s.elements.filter fun e => e.id != id
          selectedElement := none
          historyStep := nextStep },
        dbSetDeleted db id true)
    | some (.update id _ next) =>
      ({ s with
          elements := s.elements.map fun e => if e.id = id then next else e
          selectedElement :=
            match s.selectedElement with
            | some sel => if sel.id = id then some next else some sel
            | none => none
          historyStep := nextStep },
        dbWriteRow db id next)

/-- Iterated undo. -/
def undoIter : ℕ → BoardState × DB → BoardState × DB
  | 0, p => p
  | n + 1, p => undoIter n (performUndo p.1 p.2)

/-- Iterated redo. -/
def redoIter : ℕ → BoardState × DB → BoardState × DB
  | 0, p => p
  | n + 1, p => redoIter n (performRedo p.1 p.2)

/-- Source: the layer comparator `(a, b) => (a.layer || 0) - (b.layer || 0)`
passed to `Array.prototype.sort` (a stable sort, modelled by merge
sort). -/
noncomputable def sortByLayer (l : List CanvasElement) : List CanvasElement :=
  l.mergeSort fun a b => decide (a.layer.getD 0 ≤ b.layer.getD 0)

/-- Source: `deleteElement` in CanvasBoard.tsx (lines 279-285): record a
delete item, drop the element locally, clear the selection, and
soft-delete the row. -/
def deleteElement (s : BoardState) (db : DB) (el : CanvasElement) : BoardState × DB :=
  let rec1 := addToHistory s.history s.historyStep (.delete el.id)
  ({ elements := s.elements.filter fun e => e.id != el.id
     selectedElement := none
     history := rec1.1
     historyStep := rec1.2 },
    dbSetDeleted db el.id true)

/-- Source: the Delete/Backspace branch of `handleKeyDown` in
CanvasBoard.tsx (line 297).  The `canEdit` permission flag is in scope
in the component but is not consulted by this handler; it is carried
here as an argument to expose that the output never depends on it. -/
def handleDeleteKey (canEdit : Bool) (s : BoardState) (db : DB) : BoardState × DB :=
  match s.selectedElement with
  | some el => deleteElement s db el
  | none => (s, db)

/-- Source: the commit path of `handlePointerUp` in CanvasBoard.tsx
(lines 691-709): append the new element and re-sort by layer, select
it, record a create item, and insert the row.  The post-insert
replacement of the local element by the returned row is the identity in
this model, where the store returns the inserted element unchanged. -/
noncomputable def commitCreate (s : BoardState) (db : DB) (current : CanvasElement) :
    BoardState × DB :=
  let rec1 := addToHistory s.history s.historyStep (.create current.id)
  ({ elements := sortByLayer (s.elements ++ [current])
     selectedElement := some current
     history := rec1.1
     historyStep := rec1.2 },
    db ++ [current])

/-- Iterated local creation commits. -/
noncomputable def commitAll (es : List CanvasElement) (p : BoardState × DB) :
    BoardState × DB :=
  es.foldl (fun q e => commitCreate q.1 q.2 e) p

/-- Source: the `postgres_changes` UPDATE handler in CanvasBoard.tsx
(lines 339-351), acting on the element list and the selection.  A
soft-deleted update removes the element and clears a matching
selection; otherwise the element is replaced by id, inserted if unseen,
and the list re-sorted by layer. -/
noncomputable def applyRemoteUpdate (updated : CanvasElement)
    (elements : List CanvasElement) (selectedElement : Option CanvasElement) :
    List CanvasElement × Option CanvasElement :=
  if updated.is_deleted then
    (elements.filter fun e => e.id != updated.id,
      match selectedElement with
      | some sel => if sel.id = updated.id then none else some sel
      | none => none)
  else
    (match elements.find? (fun e => e.id == updated.id) with
      | some _ => sortByLayer (elements.map fun e => if e.id = updated.id then updated else e)
      | none => sortByLayer (elements ++ [updated]),
      selectedElement)

/-- Folding the remote update handler over a list of echoed rows. -/
noncomputable def applyRemoteUpdates (rows : List CanvasElement)
    (p : List CanvasElement × Option CanvasElement) :
    List CanvasElement × Option CanvasElement :=
  rows.foldl (fun q r => applyRemoteUpdate r q.1 q.2) p

/-- Source: the `setHistory`/`setHistoryStep` pair around `addToHistory`,
as a state transformer. -/
def recordItem (s : BoardState) (item : HistoryItem) : BoardState :=
  { s with
      history := (addToHistory s.history s.historyStep item).1
      historyStep := (addToHistory s.history s.historyStep item).2 }

/-- Layer order used by the sort comparator. -/
def layerLe (a b : CanvasElement) : Prop :=
  a.layer.getD 0 ≤ b.layer.getD 0

/-- The board state on mount: no elements, no selection, empty history,
cursor at -1. -/
def emptyBoard : BoardState :=
  { elements := [], selectedElement := none, history := [], historyStep := -1 }

/-- A concrete rectangle element used by witnesses and counterexamples:
the element created at (0,0) with width 100, height 50 and rotation 0. -/
noncomputable def sampleElement : CanvasElement :=
  { id := "a", canvas_id := "c", user_id := "u", type := ToolType.rect
    x := 0, y := 0, width := some 100, height := some 50, points := none
    color := "#000000", fill_color := none, stroke_width := 3
    stroke_style := none, opacity := none, rotation := some 0
    text := none, font_family := none, font_size := none, text_align := none
    layer := some 0, is_deleted := false }

/-- A second concrete element with a distinct id and a higher layer. -/
noncomputable def sampleElementB : CanvasElement :=
  { sampleElement with id := "b", layer := some 1 }

/-- A malformed freehand element: kind pencil, but the point list is
missing (undefined or null) while width and height are defined. -/
noncomputable def pencilMissingPoints : CanvasElement :=
  { sampleElement with
      type := ToolType.pencil, points := none
      width := some 5, height := some 5, rotation := none }

/-! ## C5: screen/canvas coordinate round trip -/

/-- C5: for every point P and camera C with zoom z > 0,
`canvasToScreen (screenToCanvas P C) C = P`: the two conversions of the
geometry kernel are mutually inverse in exact real arithmetic. -/
theorem screen_canvas_roundtrip (p : Point) (c : Camera) (hz : 0 < c.z) :
    canvasToScreen (screenToCanvas p c) c = p := by
  have hz0 : c.z ≠ 0 := ne_of_gt hz
  cases p with
  | mk px py =>
    simp only [screenToCanvas, canvasToScreen, Point.mk.injEq]
    constructor <;> field_simp

/-- Witness for `screen_canvas_roundtrip` at the concrete camera
(pan (3, 4), zoom 2) and point (10, 20). -/
theorem screen_canvas_roundtrip_witness :
    (0 : ℝ) < 2 ∧
      canvasToScreen (screenToCanvas ⟨10, 20⟩ ⟨3, 4, 2⟩) ⟨3, 4, 2⟩ = (⟨10, 20⟩ : Point) :=
  ⟨two_pos, screen_canvas_roundtrip ⟨10, 20⟩ ⟨3, 4, 2⟩ two_pos⟩

/-! ## History manager helper lemmas -/

/-- Redo never changes the history list itself. -/
theorem performRedo_history (s : BoardState) (db : DB) :
    ((performRedo s db).1).history = s.history := by
  rw [performRedo]
  split
  · rfl
  · dsimp only
    split <;> rfl

/-- Iterated redo never changes the history list itself. -/
theorem redoIter_history (n : ℕ) (p : BoardState × DB) :
    ((redoIter n p).1).history = p.1.history := by
  induction n generalizing p with
  | zero => rfl
  | succ n ih =>
    rw [redoIter, ih, performRedo_history]

/-- Undo with a valid cursor keeps the history list and moves the
cursor down by one. -/
theorem performUndo_shifts_cursor (s : BoardState) (db : DB) (item : HistoryItem)
    (h0 : ¬s.historyStep < 0) (hit : s.history[s.historyStep.toNat]? = some item) :
    ((performUndo s db).1).history = s.history ∧
      (performUndo s db).1.historyStep = s.historyStep - 1 := by
  rw [performUndo, if_neg h0, hit]
  cases item <;> exact ⟨rfl, rfl⟩

/-! ## C7: record truncates the future, making undone items
unreachable -/

/-- C7: `record` (addToHistory) drops every entry strictly after the
cursor, appends the new item, and points the cursor at the new last
index; consequently after record(A), undo, record(B) the item A is
absent from the history and therefore cannot be reached by any number
of redo calls. -/
theorem record_truncates_and_blocks_redo (s : BoardState) (db : DB)
    (A B : HistoryItem) (hstep : -1 ≤ s.historyStep)
    (hA : A ∉ s.history) (hAB : A ≠ B) :
    (recordItem s A).history = s.history.take (s.historyStep + 1).toNat ++ [A] ∧
    (recordItem s A).historyStep = ((recordItem s A).history.length : ℤ) - 1 ∧
    ∀ n : ℕ,
      A ∉ ((redoIter n
        (recordItem (performUndo (recordItem s A) db).1 B,
          (performUndo (recordItem s A) db).2)).1).history := by
  have hT : (recordItem s A).history = s.history.take (s.historyStep + 1).toNat ++ [A] := by
    simp only [recordItem, addToHistory, jsSlice0]
    rw [if_neg (by omega)]
  have hC1 : (recordItem s A).historyStep = ((recordItem s A).history.length : ℤ) - 1 := rfl
  set T := s.history.take (s.historyStep + 1).toNat with hTdef
  have hC : (recordItem s A).historyStep = (T.length : ℤ) := by
    rw [hC1, hT]
    push_cast [List.length_append, List.length_singleton]
    ring
  refine ⟨hT, hC1, ?_⟩
  have hnn : ¬(recordItem s A).historyStep < 0 := by
    rw [hC]; omega
  have hget : (recordItem s A).history[(recordItem s A).historyStep.toNat]? = some A := by
    rw [hT, hC]
    simpa using List.getElem?_concat_length T A
  obtain ⟨hh2, hc2⟩ := performUndo_shifts_cursor (recordItem s A) db A hnn hget
  intro n
  rw [redoIter_history]
  have e1 : (recordItem (performUndo (recordItem s A) db).1 B).history =
      jsSlice0 (performUndo (recordItem s A) db).1.history
        ((performUndo (recordItem s A) db).1.historyStep + 1) ++ [B] := rfl
  rw [e1, hh2, hc2, hC, hT, jsSlice0]
  rw [if_neg (by omega)]
  have ht2 : ((T.length : ℤ) - 1 + 1).toNat = T.length := by omega
  rw [ht2, List.take_left]
  simp only [List.mem_append, List.mem_singleton]
  rintro (hmem | rfl)
  · exact hA (List.take_subset _ _ hmem)
  · exact hAB rfl

/-- Witness for `record_truncates_and_blocks_redo` at the empty board,
with two distinct create items. -/
theorem record_truncates_and_blocks_redo_witness :
    (-1 : ℤ) ≤ emptyBoard.historyStep ∧
      (HistoryItem.create "a") ∉ emptyBoard.history ∧
      (recordItem emptyBoard (HistoryItem.create "a")).history =
        emptyBoard.history.take (emptyBoard.historyStep + 1).toNat ++
          [HistoryItem.create "a"] :=
  ⟨by decide, by simp [emptyBoard],
    (record_truncates_and_blocks_redo emptyBoard [] (HistoryItem.create "a")
      (HistoryItem.create "b") (by decide) (by simp [emptyBoard])
      (by simp)).1⟩

/-! ## C2: undo semantics -/

/-- C2 (amended): undo with cursor < 0 is a no-op on the state and the
store.  With a valid cursor, undoing a create soft-deletes the row and
removes the element from the local list, clearing the selection;
undoing a delete un-deletes the row in external persistence only,
leaving the local element list and selection untouched; undoing an
update writes the stored previous snapshot to the row, the local list
and a matching selection.  In every applied case the cursor moves down
by one and the history list is unchanged. -/
theorem performUndo_cases (s : BoardState) (db : DB) :
    (s.historyStep < 0 → performUndo s db = (s, db)) ∧
    (∀ id, s.history[s.historyStep.toNat]? = some (HistoryItem.create id) →
      ¬s.historyStep < 0 →
      performUndo s db =
        ({ s with
            elements := s.elements.filter fun e => e.id != id
            selectedElement := none
            historyStep := s.historyStep - 1 },
          dbSetDeleted db id true)) ∧
    (∀ id, s.history[s.historyStep.toNat]? = some (HistoryItem.delete id) →
      ¬s.historyStep < 0 →
      performUndo s db =
        ({ s with historyStep := s.historyStep - 1 }, dbSetDeleted db id false)) ∧
    (∀ id prev next,
      s.history[s.historyStep.toNat]? = some (HistoryItem.update id prev next) →
      ¬s.historyStep < 0 →
      performUndo s db =
        ({ s with
            elements := s.elements.map fun e => if e.id = id then prev else e
            selectedElement :=
              match s.selectedElement with
              | some sel => if sel.id = id then some prev else some sel
              | none => none
            historyStep := s.historyStep - 1 },
          dbWriteRow db id prev)) := by
  refine ⟨fun h => ?_, fun id hit h => ?_, fun id hit h => ?_, fun id prev next hit h => ?_⟩
  · rw [performUndo, if_pos h]
  · rw [performUndo, if_neg h, hit]
  · rw [performUndo, if_neg h, hit]
  · rw [performUndo, if_neg h, hit]

/-- Witness for `performUndo_cases`: undoing a concrete create removes
the element and clears the selection. -/
theorem performUndo_cases_witness :
    ([HistoryItem.create "a"][(0 : ℤ).toNat]? = some (HistoryItem.create "a")) ∧
      ¬(0 : ℤ) < 0 ∧
      (performUndo
          { elements := [sampleElement], selectedElement := some sampleElement,
            history := [HistoryItem.create "a"], historyStep := 0 }
          []).1.selectedElement = none := by
  refine ⟨rfl, by decide, ?_⟩
  rw [(performUndo_cases
    { elements := [sampleElement], selectedElement := some sampleElement,
      history := [HistoryItem.create "a"], historyStep := 0 } []).2.1 "a" rfl (by decide)]

/-- Counterexample to C2 as stated: undoing a delete item updates
external persistence (the row is un-deleted) but leaves the Element
Store and the selection untouched, so the inverse is not applied to
both.  The local state changes only in the cursor. -/
theorem performUndo_delete_skips_store :
    (performUndo
        { elements := [], selectedElement := none,
          history := [HistoryItem.delete "a"], historyStep := 0 }
        [{ sampleElement with is_deleted := true }]).1 =
      { elements := [], selectedElement := none,
        history := [HistoryItem.delete "a"], historyStep := -1 } ∧
    (performUndo
        { elements := [], selectedElement := none,
          history := [HistoryItem.delete "a"], historyStep := 0 }
        [{ sampleElement with is_deleted := true }]).2 =
      [{ sampleElement with is_deleted := false }] := by
  rw [performUndo]
  norm_num [dbSetDeleted, sampleElement]

/-! ## C4: the read-only flag does not disable the keyboard delete
path -/

/-- C4 (code bug): with the edit-permission flag false and an element
selected, the Delete/Backspace handler still soft-deletes the selected
element: it records a delete history item, removes the element from the
Element Store, and issues the soft-delete persistence update.  The
handler never consults the flag. -/
theorem deleteKey_ignores_readonly_flag :
    (handleDeleteKey false
        { elements := [sampleElement], selectedElement := some sampleElement,
          history := [], historyStep := -1 }
        [sampleElement]).1.elements = [] ∧
    (handleDeleteKey false
        { elements := [sampleElement], selectedElement := some sampleElement,
          history := [], historyStep := -1 }
        [sampleElement]).1.history = [HistoryItem.delete "a"] ∧
    (handleDeleteKey false
        { elements := [sampleElement], selectedElement := some sampleElement,
          history := [], historyStep := -1 }
        [sampleElement]).2 = [{ sampleElement with is_deleted := true }] := by
  refine ⟨?_, ?_, ?_⟩ <;>
    simp [handleDeleteKey, deleteElement, addToHistory, jsSlice0, dbSetDeleted,
      sampleElement]

/-! ## Sorting helper lemmas -/

/-- The layer sort returns a permutation of its input. -/
theorem sortByLayer_perm (l : List CanvasElement) : (sortByLayer l).Perm l :=
  List.mergeSort_perm l _

/-- The layer sort returns a list sorted by layer. -/
theorem sortByLayer_sorted (l : List CanvasElement) :
    (sortByLayer l).Pairwise layerLe := by
  have h := @List.sorted_mergeSort CanvasElement
    (fun a b => decide (a.layer.getD 0 ≤ b.layer.getD 0))
    (fun a b c hab hbc => by
      simp only [decide_eq_true_eq] at hab hbc ⊢
      exact le_trans hab hbc)
    (fun a b => by
      simp only [Bool.or_eq_true, decide_eq_true_eq]
      exact le_total _ _) l
  exact h.imp fun hab => by simpa [layerLe] using hab

/-- The layer sort fixes lists that are already sorted by layer. -/
theorem sortByLayer_eq_self (l : List CanvasElement) (h : l.Pairwise layerLe) :
    sortByLayer l = l :=
  List.mergeSort_of_sorted (h.imp fun hab => by simpa [layerLe] using hab)

/-! ## C6: merging a remote update notification -/

/-- C6: a remote update with the soft-delete flag removes the element
with that id from the Element Store (every other element is kept, in
place) and clears the selection exactly when it pointed at that id; a
remote update without the flag keeps the selection, replaces the
element by id when present or inserts it when unseen, and leaves the
list sorted by layer. -/
theorem remote_update_merges (updated : CanvasElement) (els : List CanvasElement)
    (sel : Option CanvasElement) :
    (updated.is_deleted = true →
      (∀ e ∈ (applyRemoteUpdate updated els sel).1, e.id ≠ updated.id) ∧
      (applyRemoteUpdate updated els sel).1.Sublist els ∧
      (∀ e ∈ els, e.id ≠ updated.id → e ∈ (applyRemoteUpdate updated els sel).1) ∧
      (∀ s0, sel = some s0 →
        (applyRemoteUpdate updated els sel).2 =
          if s0.id = updated.id then none else some s0) ∧
      (sel = none → (applyRemoteUpdate updated els sel).2 = none)) ∧
    (updated.is_deleted = false →
      (applyRemoteUpdate updated els sel).2 = sel ∧
      updated ∈ (applyRemoteUpdate updated els sel).1 ∧
      (applyRemoteUpdate updated els sel).1.Pairwise layerLe ∧
      ((∃ e ∈ els, e.id = updated.id) →
        (applyRemoteUpdate updated els sel).1.Perm
          (els.map fun e => if e.id = updated.id then updated else e)) ∧
      ((∀ e ∈ els, e.id ≠ updated.id) →
        (applyRemoteUpdate updated els sel).1.Perm (els ++ [updated]))) := by
  constructor
  · intro hdel
    have hr : applyRemoteUpdate updated els sel =
        (els.filter fun e => e.id != updated.id,
          match sel with
          | some s0 => if s0.id = updated.id then none else some s0
          | none => none) := by
      rw [applyRemoteUpdate.eq_def, if_pos hdel]
    refine ⟨?_, ?_, ?_, ?_, ?_⟩
    · intro e he
      rw [hr] at he
      simpa using (List.mem_filter.mp he).2
    · rw [hr]; exact List.filter_sublist _
    · intro e he hne
      rw [hr]
      exact List.mem_filter.mpr ⟨he, by simpa using hne⟩
    · intro s0 hs0; rw [hr, hs0]
    · intro hnone; rw [hr, hnone]
  · intro hdel
    have hcond : ¬(updated.is_deleted = true) := by simp [hdel]
    rcases hfind : els.find? (fun e => e.id == updated.id) with _ | e0
    · have hr : applyRemoteUpdate updated els sel = (sortByLayer (els ++ [updated]), sel) := by
        rw [applyRemoteUpdate.eq_def, if_neg hcond, hfind]
      refine ⟨by rw [hr], ?_, ?_, ?_, ?_⟩
      · rw [hr]
        exact (sortByLayer_perm _).mem_iff.mpr (by simp)
      · rw [hr]; exact sortByLayer_sorted _
      · rintro ⟨e, he, heq⟩
        exact absurd (by simpa using heq) (by simpa using List.find?_eq_none.mp hfind e he)
      · intro _
        rw [hr]
        exact sortByLayer_perm _
    · have hr : applyRemoteUpdate updated els sel =
          (sortByLayer (els.map fun e => if e.id = updated.id then updated else e), sel) := by
        rw [applyRemoteUpdate.eq_def, if_neg hcond, hfind]
      have he0 : e0 ∈ els := List.mem_of_find?_eq_some hfind
      have hid0 : e0.id = updated.id := by
        simpa using List.find?_some hfind
      refine ⟨by rw [hr], ?_, ?_, ?_, ?_⟩
      · rw [hr]
        refine (sortByLayer_perm _).mem_iff.mpr ?_
        exact List.mem_map.mpr ⟨e0, he0, by rw [if_pos hid0]⟩
      · rw [hr]; exact sortByLayer_sorted _
      · intro _
        rw [hr]
        exact sortByLayer_perm _
      · intro hall
        exact absurd hid0 (hall e0 he0)

/-- Witness for `remote_update_merges`: a remote soft-delete of the
currently selected element clears the selection. -/
theorem remote_update_merges_witness :
    ({ sampleElement with is_deleted := true } : CanvasElement).is_deleted = true ∧
      (applyRemoteUpdate { sampleElement with is_deleted := true } []
        (some sampleElement)).2 = none := by
  refine ⟨rfl, ?_⟩
  have h := ((remote_update_merges { sampleElement with is_deleted := true } []
    (some sampleElement)).1 rfl).2.2.2.1 sampleElement rfl
  rw [h]
  simp [sampleElement]

/-! ## C10: a move step only translates -/

/-- Folding a translation-compatible accumulator over uniformly
translated points shifts the result by the common delta. -/
theorem foldl_shift (f : ℝ → Point → ℝ) (t : Point → Point) (d : ℝ)
    (hf : ∀ m q, f (m + d) (t q) = f m q + d) :
    ∀ (l : List Point) (a : ℝ), (l.map t).foldl f (a + d) = l.foldl f a + d := by
  intro l
  induction l with
  | nil => intro a; rfl
  | cons p ps ih =>
    intro a
    simp only [List.map_cons, List.foldl_cons]
    rw [hf]
    exact ih _

/-- C10: one step of the moving gesture changes only the position of
the selected element.  Every non-geometry attribute (id, kind,
dimensions, rotation, layer, style, text, deletion flag) is unchanged;
a non-freehand element changes only its x and y fields; a freehand
element keeps x and y and translates every path point by one common
delta; and in all cases the derived bounding-box dimensions are
preserved. -/
theorem moveStep_changes_only_position (sel : CanvasElement) (offsetX offsetY : ℝ)
    (cp : Point) :
    (moveStep sel offsetX offsetY cp).id = sel.id ∧
    (moveStep sel offsetX offsetY cp).type = sel.type ∧
    (moveStep sel offsetX offsetY cp).width = sel.width ∧
    (moveStep sel offsetX offsetY cp).height = sel.height ∧
    (moveStep sel offsetX offsetY cp).rotation = sel.rotation ∧
    (moveStep sel offsetX offsetY cp).layer = sel.layer ∧
    (moveStep sel offsetX offsetY cp).color = sel.color ∧
    (moveStep sel offsetX offsetY cp).fill_color = sel.fill_color ∧
    (moveStep sel offsetX offsetY cp).stroke_width = sel.stroke_width ∧
    (moveStep sel offsetX offsetY cp).stroke_style = sel.stroke_style ∧
    (moveStep sel offsetX offsetY cp).opacity = sel.opacity ∧
    (moveStep sel offsetX offsetY cp).text = sel.text ∧
    (moveStep sel offsetX offsetY cp).is_deleted = sel.is_deleted ∧
    (¬(sel.type = ToolType.pencil ∧ sel.points ≠ none) →
      (moveStep sel offsetX offsetY cp).points = sel.points) ∧
    (∀ ps, sel.type = ToolType.pencil → sel.points = some ps →
      (moveStep sel offsetX offsetY cp).x = sel.x ∧
      (moveStep sel offsetX offsetY cp).y = sel.y ∧
      ∃ dx dy, (moveStep sel offsetX offsetY cp).points =
        some (ps.map fun q => ⟨q.x + dx, q.y + dy⟩)) ∧
    ((getElementBounds (moveStep sel offsetX offsetY cp)).map
        (fun b => (b.width, b.height)) =
      (getElementBounds sel).map (fun b => (b.width, b.height))) := by
  obtain ⟨i, ci, ui, ty, x, y, w, h, pts, col, fc, sw, ss, op, rot, tx, ff, fs, ta, lay, del⟩ := sel
  cases ty
  case pencil =>
    rcases pts with _ | ps
    · exact ⟨rfl, rfl, rfl, rfl, rfl, rfl, rfl, rfl, rfl, rfl, rfl, rfl, rfl,
        fun _ => rfl,
        fun ps hty hps => by simp at hty hps,
        by cases w <;> cases h <;> rfl⟩
    · rcases ps with _ | ⟨p, tl⟩
      · -- empty point list: no bounds derivable, the element is returned unchanged
        refine ⟨rfl, rfl, rfl, rfl, rfl, rfl, rfl, rfl, rfl, rfl, rfl, rfl, rfl, ?_, ?_, rfl⟩
        · intro hcon
          exact absurd ⟨rfl, by simp⟩ hcon
        · intro ps hty hps
          refine ⟨rfl, rfl, 0, 0, ?_⟩
          simp only [Option.some.injEq] at hps
          subst hps
          rfl
      · -- nonempty point list: every point is translated by one common delta
        refine ⟨rfl, rfl, rfl, rfl, rfl, rfl, rfl, rfl, rfl, rfl, rfl, rfl, rfl, ?_, ?_, ?_⟩
        · intro hcon
          exact absurd ⟨rfl, by simp⟩ hcon
        · intro ps hty hps
          simp only [Option.some.injEq] at hps
          subst hps
          exact ⟨rfl, rfl, _, _, rfl⟩
        · simp only [moveStep, getElementBounds, List.map_cons]
          rw [foldl_shift (fun m q => min m q.x) _ _
              (fun m q => min_add_add_right m q.x _) tl p.x,
            foldl_shift (fun m q => min m q.y) _ _
              (fun m q => min_add_add_right m q.y _) tl p.y,
            foldl_shift (fun m q => max m q.x) _ _
              (fun m q => max_add_add_right m q.x _) tl p.x,
            foldl_shift (fun m q => max m q.y) _ _
              (fun m q => max_add_add_right m q.y _) tl p.y]
          simp only [Option.map_some', Option.some.injEq, Prod.mk.injEq]
          constructor <;> ring
  all_goals
    exact ⟨rfl, rfl, rfl, rfl, rfl, rfl, rfl, rfl, rfl, rfl, rfl, rfl, rfl,
      fun _ => rfl,
      fun ps hty hps => by simp at hty hps,
      by cases w <;> cases h <;> rfl⟩

/-- Witness for `moveStep_changes_only_position`: moving the concrete
rectangle keeps its point list untouched. -/
theorem moveStep_changes_only_position_witness :
    ¬(sampleElement.type = ToolType.pencil ∧ sampleElement.points ≠ none) ∧
      (moveStep sampleElement 1 2 ⟨3, 4⟩).points = sampleElement.points :=
  ⟨fun hcon => by simpa [sampleElement] using hcon.1,
    (moveStep_changes_only_position sampleElement 1 2 ⟨3, 4⟩).2.2.2.2.2.2.2.2.2.2.2.2.2.1
      (fun hcon => by simpa [sampleElement] using hcon.1)⟩

/-! ## C8: malformed elements degrade to unselectable -/

/-- A pencil element with an empty point list has no derivable
bounds. -/
theorem bounds_none_of_empty_points (el : CanvasElement)
    (hty : el.type = ToolType.pencil) (hpts : el.points = some []) :
    getElementBounds el = none := by
  rw [getElementBounds.eq_def]
  split
  · rename_i pts h2
    rw [hpts] at h2
    injection h2 with h3
    subst h3
    rfl
  · rename_i hcatch
    exact absurd trivial (by simpa using hcatch [] hty hpts)

/-- On the non-pencil branch, bounds derivation reduces to the
width/height match. -/
theorem getElementBounds_shape (el : CanvasElement)
    (hel : el.type ≠ ToolType.pencil ∨ el.points = none) :
    getElementBounds el =
      match el.width, el.height with
      | some w, some h =>
        some ⟨if w < 0 then el.x + w else el.x, if h < 0 then el.y + h else el.y,
          (if w < 0 then el.x + w else el.x) + |w|,
          (if h < 0 then el.y + h else el.y) + |h|, |w|, |h|⟩
      | _, _ => none := by
  rw [getElementBounds.eq_def]
  split
  · rename_i pts h2
    rcases hel with h | h
    · exact absurd (by assumption) h
    · rw [h] at h2
      exact absurd h2 (by simp)
  · rfl

/-- An element on the non-pencil branch with a missing width or height
has no derivable bounds. -/
theorem bounds_none_of_missing_dims (el : CanvasElement)
    (hel : el.type ≠ ToolType.pencil ∨ el.points = none)
    (hwh : el.width = none ∨ el.height = none) :
    getElementBounds el = none := by
  rw [getElementBounds_shape el hel]
  split
  · rename_i w1 h1 hw1 hh1
    rcases hwh with hw | hh
    · rw [hw] at hw1; exact absurd hw1 (by simp)
    · rw [hh] at hh1; exact absurd hh1 (by simp)
  · rfl

/-- An element without derivable bounds never hits. -/
theorem isHit_of_no_bounds (p : Point) (el : CanvasElement)
    (hb : getElementBounds el = none) : isHit p el = false := by
  rw [isHit.eq_def]
  split
  · rfl
  · rw [hb]

/-- C8 (amended): a soft-deleted element never hits; a freehand element
with an empty point list has no derivable bounds and never hits; an
element handled by the shape branch (non-freehand, or freehand whose
point list is missing) with an undefined width or height has no
derivable bounds and never hits.  All functions involved are total, so
such malformed elements merely become unselectable. -/
theorem malformed_elements_degrade (p : Point) (el : CanvasElement) :
    (el.is_deleted = true → isHit p el = false) ∧
    (el.type = ToolType.pencil → el.points = some [] →
      getElementBounds el = none ∧ isHit p el = false) ∧
    (el.type ≠ ToolType.pencil ∨ el.points = none →
      el.width = none ∨ el.height = none →
      getElementBounds el = none ∧ isHit p el = false) := by
  refine ⟨fun hdel => ?_, fun hty hpts => ?_, fun hsh hwh => ?_⟩
  · rw [isHit.eq_def, if_pos hdel]
  · have hb := bounds_none_of_empty_points el hty hpts
    exact ⟨hb, isHit_of_no_bounds p el hb⟩
  · have hb := bounds_none_of_missing_dims el hsh hwh
    exact ⟨hb, isHit_of_no_bounds p el hb⟩

/-- Witness for `malformed_elements_degrade`: the soft-deleted concrete
rectangle does not hit at the origin. -/
theorem malformed_elements_degrade_witness :
    ({ sampleElement with is_deleted := true } : CanvasElement).is_deleted = true ∧
      isHit ⟨0, 0⟩ { sampleElement with is_deleted := true } = false :=
  ⟨rfl, (malformed_elements_degrade ⟨0, 0⟩ { sampleElement with is_deleted := true }).1 rfl⟩

/-- Counterexample to C8 as stated: a freehand element whose point list
is missing but whose width and height are defined falls through to the
shape branch, so bounds ARE derived and the hit test DOES hit, contrary
to the claim that a freehand element with a missing point list yields
no bounds and no hit. -/
theorem pencil_missing_points_is_selectable :
    getElementBounds pencilMissingPoints = some ⟨0, 0, 5, 5, 5, 5⟩ ∧
      isHit ⟨2, 2⟩ pencilMissingPoints = true := by
  have hb : getElementBounds pencilMissingPoints = some ⟨0, 0, 5, 5, 5, 5⟩ := by
    rw [show pencilMissingPoints =
      { sampleElement with
          type := ToolType.pencil, points := none
          width := some 5, height := some 5, rotation := none } from rfl]
    rw [sampleElement]
    rw [getElementBounds.eq_def]
    norm_num
  refine ⟨hb, ?_⟩
  rw [isHit.eq_def]
  rw [show pencilMissingPoints.is_deleted = false from rfl, if_neg (by simp)]
  rw [hb]
  rw [show pencilMissingPoints.rotation = none from rfl]
  norm_num [rotatePoint]

/-! ## C9: cursor-shape mapping -/

/-- On non-negative arguments, the JavaScript remainder normalization
`(x + 360) % 360` agrees with the floor-based modulus of x. -/
theorem jsMod_shift (x : ℝ) (hx : 0 ≤ x + 360) :
    jsMod (x + 360) 360 = x - 360 * ⌊x / 360⌋ := by
  rw [jsMod, jsTrunc, if_neg (not_lt.mpr (div_nonneg hx (by norm_num)))]
  have h1 : (x + 360) / 360 = x / 360 + 1 := by ring
  rw [h1, Int.floor_add_one]
  push_cast
  ring

/-- C9 (amended): the rotation handle always maps to the distinct
rotate cursor; for the eight resize handles the mapping matches the
specified normalize-then-bucket computation whenever the rotation is at
least -360, because the source normalizes with `(base + rotation + 360)
% 360`, whose JavaScript remainder only lands in [0,360) when its
argument is non-negative. -/
theorem cursor_matches_spec_for_bounded_rotation (handle : String) (rotation : ℝ)
    (hh : handle ∈ ["tl", "tr", "bl", "br", "tm", "bm", "lm", "rm", "rot"])
    (hrot : -360 ≤ rotation) :
    getCursorForHandle handle rotation = specCursorForHandle handle rotation := by
  fin_cases hh
  · show cursorBucket (jsMod (315 + rotation + 360) 360) =
      cursorBucket (315 + rotation - 360 * ⌊(315 + rotation) / 360⌋)
    exact congrArg cursorBucket (jsMod_shift (315 + rotation) (by linarith))
  · show cursorBucket (jsMod (45 + rotation + 360) 360) =
      cursorBucket (45 + rotation - 360 * ⌊(45 + rotation) / 360⌋)
    exact congrArg cursorBucket (jsMod_shift (45 + rotation) (by linarith))
  · show cursorBucket (jsMod (225 + rotation + 360) 360) =
      cursorBucket (225 + rotation - 360 * ⌊(225 + rotation) / 360⌋)
    exact congrArg cursorBucket (jsMod_shift (225 + rotation) (by linarith))
  · show cursorBucket (jsMod (135 + rotation + 360) 360) =
      cursorBucket (135 + rotation - 360 * ⌊(135 + rotation) / 360⌋)
    exact congrArg cursorBucket (jsMod_shift (135 + rotation) (by linarith))
  · show cursorBucket (jsMod (0 + rotation + 360) 360) =
      cursorBucket (0 + rotation - 360 * ⌊(0 + rotation) / 360⌋)
    exact congrArg cursorBucket (jsMod_shift (0 + rotation) (by linarith))
  · show cursorBucket (jsMod (180 + rotation + 360) 360) =
      cursorBucket (180 + rotation - 360 * ⌊(180 + rotation) / 360⌋)
    exact congrArg cursorBucket (jsMod_shift (180 + rotation) (by linarith))
  · show cursorBucket (jsMod (270 + rotation + 360) 360) =
      cursorBucket (270 + rotation - 360 * ⌊(270 + rotation) / 360⌋)
    exact congrArg cursorBucket (jsMod_shift (270 + rotation) (by linarith))
  · show cursorBucket (jsMod (90 + rotation + 360) 360) =
      cursorBucket (90 + rotation - 360 * ⌊(90 + rotation) / 360⌋)
    exact congrArg cursorBucket (jsMod_shift (90 + rotation) (by linarith))
  · rfl

/-- Witness for `cursor_matches_spec_for_bounded_rotation` at the
right-middle handle and rotation -360. -/
theorem cursor_matches_spec_witness :
    ("rm" ∈ ["tl", "tr", "bl", "br", "tm", "bm", "lm", "rm", "rot"]) ∧
      (-360 : ℝ) ≤ -360 ∧
      getCursorForHandle "rm" (-360) = specCursorForHandle "rm" (-360) :=
  ⟨by decide, le_refl _,
    cursor_matches_spec_for_bounded_rotation "rm" (-360) (by decide) (le_refl _)⟩

/-- Counterexample to C9 as stated: at handle tm and rotation -400 the
argument of the JavaScript remainder is -40, the remainder keeps the
sign of its dividend, and the source returns the ns-resize cursor,
while the specified normalization into [0,360) gives the effective
angle 320 whose bucket is nwse-resize. -/
theorem cursor_mapping_counterexample :
    getCursorForHandle "tm" (-400) = "ns-resize" ∧
      specCursorForHandle "tm" (-400) = "nwse-resize" := by
  constructor
  · show cursorBucket (jsMod (0 + -400 + 360) 360) = "ns-resize"
    have h1 : (0 : ℝ) + -400 + 360 = -40 := by norm_num
    rw [h1]
    have h2 : jsMod (-40 : ℝ) 360 = -40 := by
      rw [jsMod, jsTrunc, if_pos (by norm_num)]
      have h3 : ⌈(-40 : ℝ) / 360⌉ = 0 := by norm_num [Int.ceil_eq_iff]
      rw [h3]
      norm_num
    rw [h2, cursorBucket]
    rw [if_pos (by norm_num)]
  · show cursorBucket ((0 : ℝ) + -400 - 360 * ⌊((0 : ℝ) + -400) / 360⌋) = "nwse-resize"
    have h3 : ⌊((0 : ℝ) + -400) / 360⌋ = -2 := by norm_num [Int.floor_eq_iff]
    rw [h3]
    norm_num [cursorBucket]

/-! ## C1: rotation-aware resize keeps the opposite anchor fixed -/

/-- Value of the opposite anchor for the top-left handle. -/
theorem anchorNew_tl (r : RectBox) : anchorNew "tl" r = ⟨r.x + r.w, r.y + r.h⟩ := rfl

/-- Value of the opposite anchor for the top-right handle. -/
theorem anchorNew_tr (r : RectBox) : anchorNew "tr" r = ⟨r.x, r.y + r.h⟩ := rfl

/-- Value of the opposite anchor for the bottom-left handle. -/
theorem anchorNew_bl (r : RectBox) : anchorNew "bl" r = ⟨r.x + r.w, r.y⟩ := rfl

/-- Value of the opposite anchor for the bottom-right handle. -/
theorem anchorNew_br (r : RectBox) : anchorNew "br" r = ⟨r.x, r.y⟩ := rfl

/-- Value of the opposite anchor for the top-middle handle. -/
theorem anchorNew_tm (r : RectBox) : anchorNew "tm" r = ⟨r.x + r.w / 2, r.y + r.h⟩ := rfl

/-- Value of the opposite anchor for the bottom-middle handle. -/
theorem anchorNew_bm (r : RectBox) : anchorNew "bm" r = ⟨r.x + r.w / 2, r.y⟩ := rfl

/-- Value of the opposite anchor for the left-middle handle. -/
theorem anchorNew_lm (r : RectBox) : anchorNew "lm" r = ⟨r.x + r.w, r.y + r.h / 2⟩ := rfl

/-- Value of the opposite anchor for the right-middle handle. -/
theorem anchorNew_rm (r : RectBox) : anchorNew "rm" r = ⟨r.x, r.y + r.h / 2⟩ := rfl

/-- Anchor recovery: for any raw box (x0, y0, w0, h0) produced by the
dimension-update phase, the corrected origin computed in the final
phase of the resize step places the opposite anchor of the final box,
rotated about the final center, exactly on the target world point
AW. -/
theorem anchor_recover (handle : String)
    (hh : handle ∈ ["tl", "tr", "bl", "br", "tm", "bm", "lm", "rm"])
    (x0 y0 w0 h0 : ℝ) (AW : Point) (θ : ℝ) :
    rotatePoint
        (anchorNew handle
          ⟨AW.x -
              (rotatePoint
                ⟨(anchorNew handle ⟨x0, y0, w0, h0⟩).x - (x0 + w0 / 2),
                  (anchorNew handle ⟨x0, y0, w0, h0⟩).y - (y0 + h0 / 2)⟩ ⟨0, 0⟩ θ).x -
              w0 / 2,
            AW.y -
              (rotatePoint
                ⟨(anchorNew handle ⟨x0, y0, w0, h0⟩).x - (x0 + w0 / 2),
                  (anchorNew handle ⟨x0, y0, w0, h0⟩).y - (y0 + h0 / 2)⟩ ⟨0, 0⟩ θ).y -
              h0 / 2,
            w0, h0⟩)
        ⟨(AW.x -
              (rotatePoint
                ⟨(anchorNew handle ⟨x0, y0, w0, h0⟩).x - (x0 + w0 / 2),
                  (anchorNew handle ⟨x0, y0, w0, h0⟩).y - (y0 + h0 / 2)⟩ ⟨0, 0⟩ θ).x -
              w0 / 2) + w0 / 2,
          (AW.y -
              (rotatePoint
                ⟨(anchorNew handle ⟨x0, y0, w0, h0⟩).x - (x0 + w0 / 2),
                  (anchorNew handle ⟨x0, y0, w0, h0⟩).y - (y0 + h0 / 2)⟩ ⟨0, 0⟩ θ).y -
              h0 / 2) + h0 / 2⟩ θ = AW := by
  obtain ⟨ax, ay⟩ := AW
  fin_cases hh <;>
    · simp only [anchorNew_tl, anchorNew_tr, anchorNew_bl, anchorNew_br,
        anchorNew_tm, anchorNew_bm, anchorNew_lm, anchorNew_rm, rotatePoint,
        Point.mk.injEq]
      constructor <;> ring

/-- C1: for every starting bounding box (in particular every derivable
one), every rotation, every aspect-lock state and both gesture points,
one step of the resize computation for any of the eight handles yields
a box whose opposite anchor, placed by the new origin and dimensions
and rotated about the new center by the original rotation, lands
exactly on the world position of the original opposite anchor rotated
about the original center — exact real arithmetic. -/
theorem resize_preserves_opposite_anchor (handle : String)
    (hh : handle ∈ ["tl", "tr", "bl", "br", "tm", "bm", "lm", "rm"])
    (b : BoundingBox) (startPoint canvasPoint : Point) (θ : ℝ) (shiftKey : Bool) :
    rotatePoint (anchorNew handle (resizeBox handle b startPoint canvasPoint θ shiftKey))
        ⟨(resizeBox handle b startPoint canvasPoint θ shiftKey).x +
            (resizeBox handle b startPoint canvasPoint θ shiftKey).w / 2,
          (resizeBox handle b startPoint canvasPoint θ shiftKey).y +
            (resizeBox handle b startPoint canvasPoint θ shiftKey).h / 2⟩ θ =
      rotatePoint (anchorOld handle b)
        ⟨b.minX + b.width / 2, b.minY + b.height / 2⟩ θ :=
  anchor_recover handle hh
    (resizeRawBox handle b
      ((rotatePoint canvasPoint ⟨b.minX + b.width / 2, b.minY + b.height / 2⟩ (-θ)).x -
        (rotatePoint startPoint ⟨b.minX + b.width / 2, b.minY + b.height / 2⟩ (-θ)).x)
      ((rotatePoint canvasPoint ⟨b.minX + b.width / 2, b.minY + b.height / 2⟩ (-θ)).y -
        (rotatePoint startPoint ⟨b.minX + b.width / 2, b.minY + b.height / 2⟩ (-θ)).y)
      shiftKey).x
    (resizeRawBox handle b
      ((rotatePoint canvasPoint ⟨b.minX + b.width / 2, b.minY + b.height / 2⟩ (-θ)).x -
        (rotatePoint startPoint ⟨b.minX + b.width / 2, b.minY + b.height / 2⟩ (-θ)).x)
      ((rotatePoint canvasPoint ⟨b.minX + b.width / 2, b.minY + b.height / 2⟩ (-θ)).y -
        (rotatePoint startPoint ⟨b.minX + b.width / 2, b.minY + b.height / 2⟩ (-θ)).y)
      shiftKey).y
    (resizeRawBox handle b
      ((rotatePoint canvasPoint ⟨b.minX + b.width / 2, b.minY + b.height / 2⟩ (-θ)).x -
        (rotatePoint startPoint ⟨b.minX + b.width / 2, b.minY + b.height / 2⟩ (-θ)).x)
      ((rotatePoint canvasPoint ⟨b.minX + b.width / 2, b.minY + b.height / 2⟩ (-θ)).y -
        (rotatePoint startPoint ⟨b.minX + b.width / 2, b.minY + b.height / 2⟩ (-θ)).y)
      shiftKey).w
    (resizeRawBox handle b
      ((rotatePoint canvasPoint ⟨b.minX + b.width / 2, b.minY + b.height / 2⟩ (-θ)).x -
        (rotatePoint startPoint ⟨b.minX + b.width / 2, b.minY + b.height / 2⟩ (-θ)).x)
      ((rotatePoint canvasPoint ⟨b.minX + b.width / 2, b.minY + b.height / 2⟩ (-θ)).y -
        (rotatePoint startPoint ⟨b.minX + b.width / 2, b.minY + b.height / 2⟩ (-θ)).y)
      shiftKey).h
    (rotatePoint (anchorOld handle b) ⟨b.minX + b.width / 2, b.minY + b.height / 2⟩ θ) θ

/-- Witness for `resize_preserves_opposite_anchor`: the right-middle
handle on the box of the concrete rectangle (origin (0,0), 100 by 50)
rotated by 90 degrees, dragged without aspect lock. -/
theorem resize_preserves_opposite_anchor_witness :
    ("rm" ∈ ["tl", "tr", "bl", "br", "tm", "bm", "lm", "rm"]) ∧
      rotatePoint
          (anchorNew "rm" (resizeBox "rm" ⟨0, 0, 100, 50, 100, 50⟩ ⟨100, 25⟩ ⟨120, 25⟩ 90 false))
          ⟨(resizeBox "rm" ⟨0, 0, 100, 50, 100, 50⟩ ⟨100, 25⟩ ⟨120, 25⟩ 90 false).x +
              (resizeBox "rm" ⟨0, 0, 100, 50, 100, 50⟩ ⟨100, 25⟩ ⟨120, 25⟩ 90 false).w / 2,
            (resizeBox "rm" ⟨0, 0, 100, 50, 100, 50⟩ ⟨100, 25⟩ ⟨120, 25⟩ 90 false).y +
              (resizeBox "rm" ⟨0, 0, 100, 50, 100, 50⟩ ⟨100, 25⟩ ⟨120, 25⟩ 90 false).h / 2⟩ 90 =
        rotatePoint (anchorOld "rm" ⟨0, 0, 100, 50, 100, 50⟩)
          ⟨(0 : ℝ) + 100 / 2, (0 : ℝ) + 50 / 2⟩ 90 :=
  ⟨by decide,
    resize_preserves_opposite_anchor "rm" (by decide)
      ⟨0, 0, 100, 50, 100, 50⟩ ⟨100, 25⟩ ⟨120, 25⟩ 90 false⟩

/-! ## C3: N creates, undo N, redo N -/

/-- Recording at a cursor already at the end of the log appends. -/
theorem addToHistory_at_end (h : List HistoryItem) (item : HistoryItem) :
    addToHistory h ((h.length : ℤ) - 1) item = (h ++ [item], (h.length : ℤ)) := by
  rw [addToHistory, jsSlice0, if_neg (by omega)]
  have h1 : ((h.length : ℤ) - 1 + 1).toNat = h.length := by omega
  rw [h1, List.take_length]
  simp [Prod.ext_iff]
  try omega

/-- A soft-delete persistence update touching no row id is the
identity. -/
theorem dbSetDeleted_not_mem (d : DB) (id : String) (b : Bool)
    (h : ∀ r ∈ d, r.id ≠ id) : dbSetDeleted d id b = d := by
  induction d with
  | nil => rfl
  | cons r d ih =>
    simp only [dbSetDeleted, List.map_cons]
    rw [if_neg (h r (by simp))]
    congr 1
    exact ih fun r hr => h r (by simp [hr])

/-- The soft-delete persistence update distributes over appended row
lists. -/
theorem dbSetDeleted_append (d1 d2 : DB) (id : String) (b : Bool) :
    dbSetDeleted (d1 ++ d2) id b = dbSetDeleted d1 id b ++ dbSetDeleted d2 id b :=
  List.map_append _ _ _

/-- Filtering away a row id touching no element is the identity. -/
theorem filter_ne_ids (l : List CanvasElement) (id : String)
    (h : ∀ r ∈ l, r.id ≠ id) : (l.filter fun e => e.id != id) = l :=
  List.filter_eq_self.mpr fun a ha => by simpa using h a ha

/-- Clearing the deletion flag of an undeleted element is the
identity. -/
theorem setDeletedFalse_eq (x : CanvasElement) (h : x.is_deleted = false) :
    ({ x with is_deleted := false } : CanvasElement) = x := by
  obtain ⟨i, ci, ui, ty, xx, yy, w, hh2, pts, col, fc, sw, ss, op, rot, tx, ff, fs, ta, lay, del⟩ := x
  simp only at h
  subst h
  rfl

/-- Shape of a single commit at a cursor at the end of the log:
the element is appended (the list stays sorted), selected, a create
item recorded, and the row inserted. -/
theorem commitCreate_shape (s : BoardState) (db : DB) (e : CanvasElement)
    (hsort : (s.elements ++ [e]).Pairwise layerLe)
    (hstep : s.historyStep = (s.history.length : ℤ) - 1) :
    commitCreate s db e =
      ({ elements := s.elements ++ [e]
         selectedElement := some e
         history := s.history ++ [HistoryItem.create e.id]
         historyStep := (s.history.length : ℤ) }, db ++ [e]) := by
  simp only [commitCreate, hstep, addToHistory_at_end,
    sortByLayer_eq_self (s.elements ++ [e]) hsort]

/-- Shape of a run of commits from a cursor at the end of the log. -/
theorem commitAll_shape : ∀ (es : List CanvasElement) (s : BoardState) (db : DB),
    (s.elements ++ es).Pairwise layerLe →
    s.historyStep = (s.history.length : ℤ) - 1 →
    commitAll es (s, db) =
      ({ elements := s.elements ++ es
         selectedElement := es.foldl (fun _ e => some e) s.selectedElement
         history := s.history ++ es.map fun e => HistoryItem.create e.id
         historyStep := (s.history.length : ℤ) + es.length - 1 }, db ++ es) := by
  intro es
  induction es with
  | nil =>
    intro s db hsort hstep
    obtain ⟨els, sel, hist, step⟩ := s
    simp only at hstep
    subst hstep
    simp [commitAll]
  | cons e es ih =>
    intro s db hsort hstep
    have h1 : commitAll (e :: es) (s, db) = commitAll es (commitCreate s db e) := rfl
    have hsE : (s.elements ++ [e]).Pairwise layerLe := by
      refine hsort.sublist ?_
      exact (List.cons_sublist_cons.mpr (List.nil_sublist es)).append_left s.elements
    rw [h1, commitCreate_shape s db e hsE hstep]
    rw [ih _ (db ++ [e]) (by simpa using hsort) (by simp)]
    simp [List.append_assoc, BoardState.mk.injEq, Prod.ext_iff]
    omega

/-- Shape of the undo phase: undoing one create per prefix element
empties the local list, clears the selection when anything was undone,
flags every row deleted, and leaves the history in place with the
cursor at -1. -/
theorem undoPhase : ∀ (pre : List CanvasElement) (suf : List CanvasElement)
    (sel : Option CanvasElement),
    ((pre ++ suf).Pairwise fun a b => a.id ≠ b.id) →
    undoIter pre.length
      ({ elements := pre, selectedElement := sel,
         history := (pre ++ suf).map fun e => HistoryItem.create e.id,
         historyStep := (pre.length : ℤ) - 1 },
        pre ++ suf.map fun e => { e with is_deleted := true }) =
      ({ elements := [], selectedElement := if pre.isEmpty then sel else none,
         history := (pre ++ suf).map fun e => HistoryItem.create e.id,
         historyStep := -1 },
        (pre ++ suf).map fun e => { e with is_deleted := true }) := by
  intro pre
  induction pre using List.reverseRecOn with
  | nil =>
    intro suf sel hdist
    simp [undoIter]
  | append_singleton pre e ih =>
    intro suf sel hdist
    have hdist' : (pre ++ (e :: suf)).Pairwise fun a b => a.id ≠ b.id := by
      simpa [List.append_assoc] using hdist
    have hpairs := List.pairwise_append.mp hdist'
    have hpre_e : ∀ a ∈ pre, a.id ≠ e.id := fun a ha =>
      hpairs.2.2 a ha e (by simp)
    have hsuf_e : ∀ a ∈ suf, a.id ≠ e.id := fun a ha =>
      Ne.symm ((List.pairwise_cons.mp hpairs.2.1).1 a ha)
    have hlen : (pre ++ [e]).length = pre.length + 1 := by simp
    rw [hlen, undoIter]
    have hidx : (((pre.length + 1 : ℕ) : ℤ) - 1).toNat = pre.length := by omega
    have hget :
        (((pre ++ [e]) ++ suf).map fun x => HistoryItem.create x.id)[pre.length]? =
          some (HistoryItem.create e.id) := by
      rw [List.getElem?_map, List.append_assoc,
        List.getElem?_append_right (by simp)]
      simp
    have hu : performUndo
        ({ elements := pre ++ [e], selectedElement := sel,
           history := ((pre ++ [e]) ++ suf).map fun x => HistoryItem.create x.id,
           historyStep := ((pre.length + 1 : ℕ) : ℤ) - 1 } : BoardState)
        ((pre ++ [e]) ++ suf.map fun x => { x with is_deleted := true }) =
        ({ elements := pre, selectedElement := none,
           history := (pre ++ (e :: suf)).map fun x => HistoryItem.create x.id,
           historyStep := (pre.length : ℤ) - 1 },
          pre ++ (e :: suf).map fun x => { x with is_deleted := true }) := by
      rw [performUndo,
        if_neg (show ¬(((pre.length + 1 : ℕ) : ℤ) - 1 < 0) by omega)]
      simp only [hidx, hget]
      have hfil : ((pre ++ [e]).filter fun x => x.id != e.id) = pre := by
        rw [List.filter_append, filter_ne_ids pre e.id hpre_e]
        simp
      have hdb : dbSetDeleted ((pre ++ [e]) ++ suf.map fun x => { x with is_deleted := true })
          e.id true = pre ++ (e :: suf).map fun x => { x with is_deleted := true } := by
        rw [dbSetDeleted_append, dbSetDeleted_append]
        rw [dbSetDeleted_not_mem pre e.id true hpre_e]
        rw [dbSetDeleted_not_mem (suf.map fun x => { x with is_deleted := true }) e.id true
          (by intro r hr; obtain ⟨a, ha, rfl⟩ := List.mem_map.mp hr; exact hsuf_e a ha)]
        simp [dbSetDeleted, BoardState.mk.injEq, List.append_assoc,
          List.singleton_append]
      rw [hfil, hdb]
      simp [BoardState.mk.injEq, List.append_assoc, List.singleton_append]
      try omega
    rw [hu]
    rw [ih (e :: suf) none hdist']
    simp [List.append_assoc, List.singleton_append]

/-- Overwriting the deletion flag twice keeps only the last value. -/
theorem setDeleted_overwrite (x : CanvasElement) (b c : Bool) :
    ({ ({ x with is_deleted := b } : CanvasElement) with is_deleted := c } : CanvasElement) =
      { x with is_deleted := c } := rfl

/-- One-step unfolding of the soft-delete persistence update. -/
theorem dbSetDeleted_cons (a : CanvasElement) (l : DB) (id : String) (b : Bool) :
    dbSetDeleted (a :: l) id b =
      (if a.id = id then { a with is_deleted := b } else a) :: dbSetDeleted l id b := rfl

/-- Shape of the redo phase over a run of create items: each redo
un-deletes one row and advances the cursor; the local element list and
the selection are never touched. -/
theorem redoPhase : ∀ (todo done : List CanvasElement)
    (els : List CanvasElement) (sel : Option CanvasElement),
    ((done ++ todo).Pairwise fun a b => a.id ≠ b.id) →
    (∀ x ∈ done ++ todo, x.is_deleted = false) →
    redoIter todo.length
      ({ elements := els, selectedElement := sel,
         history := (done ++ todo).map fun e => HistoryItem.create e.id,
         historyStep := (done.length : ℤ) - 1 },
        done ++ todo.map fun e => { e with is_deleted := true }) =
      ({ elements := els, selectedElement := sel,
         history := (done ++ todo).map fun e => HistoryItem.create e.id,
         historyStep := ((done ++ todo).length : ℤ) - 1 },
        done ++ todo) := by
  intro todo
  induction todo with
  | nil =>
    intro done els sel hdist hdel
    simp [redoIter]
  | cons e todo ih =>
    intro done els sel hdist hdel
    have hpairs := List.pairwise_append.mp hdist
    have hdone_e : ∀ a ∈ done, a.id ≠ e.id := fun a ha =>
      hpairs.2.2 a ha e (by simp)
    have htodo_e : ∀ a ∈ todo, a.id ≠ e.id := fun a ha =>
      Ne.symm ((List.pairwise_cons.mp hpairs.2.1).1 a ha)
    have hedel : e.is_deleted = false := hdel e (by simp)
    rw [show (e :: todo).length = todo.length + 1 from rfl, redoIter]
    have hidx : ((done.length : ℤ) - 1 + 1).toNat = done.length := by omega
    have hget :
        ((done ++ e :: todo).map fun x => HistoryItem.create x.id)[done.length]? =
          some (HistoryItem.create e.id) := by
      rw [List.getElem?_map, List.getElem?_append_right (le_refl _)]
      simp
    have hdb : dbSetDeleted
        (done ++ ({ e with is_deleted := true } :: todo.map fun x => { x with is_deleted := true }))
        e.id false = (done ++ [e]) ++ todo.map fun x => { x with is_deleted := true } := by
      rw [dbSetDeleted_append, dbSetDeleted_not_mem done e.id false hdone_e,
        dbSetDeleted_cons, if_pos rfl, setDeleted_overwrite, setDeletedFalse_eq e hedel,
        dbSetDeleted_not_mem (todo.map fun x => { x with is_deleted := true }) e.id false
          (by intro r hr; obtain ⟨a, ha, rfl⟩ := List.mem_map.mp hr; exact htodo_e a ha)]
      simp
    have hr : performRedo
        ({ elements := els, selectedElement := sel,
           history := (done ++ e :: todo).map fun x => HistoryItem.create x.id,
           historyStep := (done.length : ℤ) - 1 } : BoardState)
        (done ++ ({ e with is_deleted := true } :: todo.map fun x => { x with is_deleted := true })) =
        ({ elements := els, selectedElement := sel,
           history := ((done ++ [e]) ++ todo).map fun x => HistoryItem.create x.id,
           historyStep := ((done ++ [e]).length : ℤ) - 1 },
          (done ++ [e]) ++ todo.map fun x => { x with is_deleted := true }) := by
      rw [performRedo,
        if_neg (show ¬((((done ++ e :: todo).map fun x => HistoryItem.create x.id).length : ℤ) - 1 ≤ (done.length : ℤ) - 1) by
          simp
          try omega)]
      dsimp only
      simp only [hidx, hget]
      rw [hdb]
      simp [BoardState.mk.injEq, List.append_assoc, List.singleton_append]
      try omega
    rw [show done ++ (e :: todo).map (fun x => { x with is_deleted := true }) =
        done ++ ({ e with is_deleted := true } :: todo.map fun x => { x with is_deleted := true })
      from by simp]
    rw [hr]
    rw [ih (done ++ [e]) els sel (by simpa [List.append_assoc] using hdist)
      (by intro x hx; exact hdel x (by simpa [List.append_assoc] using hx))]
    simp [List.append_assoc, List.singleton_append, BoardState.mk.injEq, Prod.ext_iff]
    try omega

/-- Shape of the echo phase: merging the redone rows back through the
remote update handler appends each element, keeping the list sorted and
the selection untouched. -/
theorem echoPhase : ∀ (todo done : List CanvasElement) (sel : Option CanvasElement),
    ((done ++ todo).Pairwise fun a b => a.id ≠ b.id) →
    ((done ++ todo).Pairwise layerLe) →
    (∀ x ∈ todo, x.is_deleted = false) →
    applyRemoteUpdates todo (done, sel) = (done ++ todo, sel) := by
  intro todo
  induction todo with
  | nil =>
    intro done sel _ _ _
    simp [applyRemoteUpdates]
  | cons e todo ih =>
    intro done sel hdist hlay hdel
    have h1 : applyRemoteUpdates (e :: todo) (done, sel) =
        applyRemoteUpdates todo (applyRemoteUpdate e done sel) := rfl
    have hpairs := List.pairwise_append.mp hdist
    have hdone_e : ∀ a ∈ done, a.id ≠ e.id := fun a ha =>
      hpairs.2.2 a ha e (by simp)
    have hfind : done.find? (fun x => x.id == e.id) = none :=
      List.find?_eq_none.mpr fun x hx => by simpa using hdone_e x hx
    have happ : applyRemoteUpdate e done sel = (done ++ [e], sel) := by
      rw [applyRemoteUpdate.eq_def, if_neg (by simp [hdel e (by simp)]), hfind]
      rw [sortByLayer_eq_self (done ++ [e])
        (hlay.sublist ((List.cons_sublist_cons.mpr (List.nil_sublist todo)).append_left done))]
    rw [h1, happ,
      ih (done ++ [e]) sel (by simpa [List.append_assoc] using hdist)
        (by simpa [List.append_assoc] using hlay)
        (fun x hx => hdel x (by simp [hx]))]
    simp [List.append_assoc]

/-- C3 (amended): after N locally committed creates, undoing N times
and then redoing N times restores the external store exactly (every
row un-deleted with its original attributes) and restores the history
log and cursor, but the local Element Store is left EMPTY — performRedo
never re-inserts a created element locally; the exact pre-undo element
list reappears only once the redo persistence updates are echoed back
through the remote update handler. -/
theorem creates_undo_redo_restores_store (es : List CanvasElement)
    (hid : es.Pairwise fun a b => a.id ≠ b.id)
    (hlay : es.Pairwise layerLe)
    (hdel : ∀ x ∈ es, x.is_deleted = false) :
    (redoIter es.length (undoIter es.length (commitAll es (emptyBoard, [])))).2 =
      (commitAll es (emptyBoard, [])).2 ∧
    (redoIter es.length (undoIter es.length (commitAll es (emptyBoard, [])))).1.elements = [] ∧
    (redoIter es.length (undoIter es.length (commitAll es (emptyBoard, [])))).1.history =
      (commitAll es (emptyBoard, [])).1.history ∧
    (redoIter es.length (undoIter es.length (commitAll es (emptyBoard, [])))).1.historyStep =
      (commitAll es (emptyBoard, [])).1.historyStep ∧
    (applyRemoteUpdates
        (redoIter es.length (undoIter es.length (commitAll es (emptyBoard, [])))).2
        ((redoIter es.length (undoIter es.length (commitAll es (emptyBoard, [])))).1.elements,
          (redoIter es.length (undoIter es.length
            (commitAll es (emptyBoard, [])))).1.selectedElement)).1 =
      (commitAll es (emptyBoard, [])).1.elements := by
  have hc := commitAll_shape es emptyBoard [] (by simpa [emptyBoard] using hlay)
    (by simp [emptyBoard])
  simp only [emptyBoard, List.nil_append, List.length_nil, Nat.cast_zero, zero_add,
    List.map_nil] at hc
  have hu := undoPhase es [] (es.foldl (fun _ e => some e) none) (by simpa using hid)
  simp only [List.append_nil, List.map_nil] at hu
  have hr := redoPhase es [] [] (if es.isEmpty then es.foldl (fun _ e => some e) none else none)
    (by simpa using hid) (by simpa using hdel)
  simp only [List.nil_append, List.length_nil, Nat.cast_zero, zero_sub] at hr
  simp only [emptyBoard]
  rw [hc, hu, hr]
  refine ⟨rfl, rfl, rfl, by simp, ?_⟩
  rw [echoPhase es [] (if es.isEmpty then es.foldl (fun _ e => some e) none else none)
    (by simpa using hid) (by simpa using hlay) hdel]
  simp

/-- Witness for `creates_undo_redo_restores_store` at a single concrete
create. -/
theorem creates_undo_redo_restores_store_witness :
    (([sampleElement] : List CanvasElement).Pairwise fun a b => a.id ≠ b.id) ∧
      (∀ x ∈ ([sampleElement] : List CanvasElement), x.is_deleted = false) ∧
      (redoIter [sampleElement].length
          (undoIter [sampleElement].length (commitAll [sampleElement] (emptyBoard, [])))).2 =
        (commitAll [sampleElement] (emptyBoard, [])).2 :=
  ⟨by simp, by simp [sampleElement],
    (creates_undo_redo_restores_store [sampleElement] (by simp) (by simp [layerLe])
      (by simp [sampleElement])).1⟩

/-- Counterexample to C3 as stated: committing one create, undoing once
and redoing once leaves the Element Store empty, although the exact
list before the undo was the one-element list — redo of a create only
un-deletes the row in external persistence and never re-inserts the
element into the local list. -/
theorem undo_redo_create_loses_local_list :
    (redoIter 1 (undoIter 1 (commitAll [sampleElement] (emptyBoard, [])))).1.elements = [] ∧
      (commitAll [sampleElement] (emptyBoard, [])).1.elements = [sampleElement] := by
  have hc := commitAll_shape [sampleElement] emptyBoard [] (by simp [emptyBoard, layerLe])
    (by simp [emptyBoard])
  simp only [emptyBoard, List.nil_append, List.length_nil, Nat.cast_zero, zero_add,
    List.map_nil] at hc
  have hu := undoPhase [sampleElement] [] (some sampleElement) (by simp)
  simp only [List.append_nil, List.map_nil] at hu
  have hr := redoPhase [sampleElement] [] []
    (if ([sampleElement] : List CanvasElement).isEmpty then some sampleElement else none)
    (by simp) (by simp [sampleElement])
  simp only [List.nil_append, List.length_nil, Nat.cast_zero, zero_sub] at hr
  have hsel : ([sampleElement] : List CanvasElement).foldl (fun _ e => some e) none =
      some sampleElement := rfl
  rw [hsel] at hc
  constructor
  · simp only [emptyBoard]
    rw [show (1 : ℕ) = [sampleElement].length from rfl, hc, hu, hr]
  · simp only [emptyBoard]
    rw [hc]

end Whiteboard
